import Mathlib

/-!
Verification of the quiche-nwep build / release tooling.

This file gives a shallow embedding of the TypeScript build orchestrator
(`src/scripts/build.ts`), the workflow orchestrator (`src/scripts/workflow.ts`)
and the version handling of the commit / release scripts, and proves the
frozen claims about them.

External processes are modelled by their observable outcome: a spawned child
either fires the `close` event with an exit code (carrying whatever it wrote
to stdout / stderr), or fires the `error` event with an error message.
-/

namespace Quiche

/-! ## Build executor (`src/scripts/build.ts`) -/

/-- Build mode, `'debug' | 'release'`. -/
inductive Mode
  | debug
  | release
  deriving DecidableEq, Repr

/-- The string a mode contributes to the derived output path. -/
def Mode.str : Mode → String
  | .debug => "debug"
  | .release => "release"

/-- `Platform` from build.ts: only the fields the claims depend on.
`target` is the optional toolchain triple. -/
structure Platform where
  id : String
  target : Option String
  deriving DecidableEq, Repr

/-- `BuildOptions` from build.ts. -/
structure BuildOptions where
  mode : Mode
  features : List String
  parallel : Bool
  verbose : Bool
  deriving DecidableEq, Repr

/-- `BuildResult` from build.ts. -/
structure BuildResult where
  platform : Platform
  success : Bool
  duration : Nat
  error : Option String
  outputPath : Option String
  deriving DecidableEq, Repr

/-- Observable outcome of the spawned child process: either the `close`
event with an exit code and the text the child produced on stdout / stderr,
or the `error` event with the error's message. -/
inductive ChildEvent
  | closed (code : Int) (stdout : String) (stderr : String)
  | errored (msg : String)
  deriving DecidableEq, Repr

/-- JavaScript `a || b` on strings: `b` if `a` is falsy (empty), else `a`. -/
def jsOr (a b : String) : String :=
  if a = "" then b else a

/-- `buildPlatform` from build.ts, as a function of the child's observable
outcome and the measured wall-clock duration.  In quiet mode the data
listeners accumulate the child's stdout / stderr; in verbose mode no
listeners are attached, so both buffers stay empty. -/
def buildPlatform (p : Platform) (options : BuildOptions) (ev : ChildEvent)
    (duration : Nat) : BuildResult :=
  match ev with
  | .closed code out err =>
    let output := if options.verbose then "" else out
    let errorOutput := if options.verbose then "" else err
    if code = 0 then
      { platform := p, success := true, duration, error := none,
        outputPath := some (match p.target with
          | some t => "target/" ++ t ++ "/" ++ options.mode.str ++ "/"
          | none => "target/" ++ options.mode.str ++ "/") }
    else
      { platform := p, success := false, duration,
        error := some (jsOr errorOutput (jsOr output
          ("Build failed with exit code " ++ toString code))),
        outputPath := none }
  | .errored msg =>
    { platform := p, success := false, duration, error := some msg,
      outputPath := none }

/-- The output path the spec says a successful build must report:
`target/<triple>/<mode>/` when a toolchain triple is present,
`target/<mode>/` otherwise. -/
def expectedOutputPath (p : Platform) (options : BuildOptions) : String :=
  match p.target with
  | some t => "target/" ++ t ++ "/" ++ options.mode.str ++ "/"
  | none => "target/" ++ options.mode.str ++ "/"

/-! ## Running all selected builds (`main` of build.ts) -/

/-- Sequential mode: the `for` loop pushes each platform's result in array
order.  The outcome and duration of each platform's child process are part
of the model's input. -/
def runAllSequential (ps : List Platform) (options : BuildOptions)
    (outcome : Platform → ChildEvent) (dur : Platform → Nat) : List BuildResult :=
  ps.foldl (fun acc p => acc ++ [buildPlatform p options (outcome p) (dur p)]) []

/-- One step of `Promise.all` slot filling: when the build at index `k`
completes, its result is stored in slot `k` of the result array,
regardless of when it completes. -/
def fillSlot (xs : List BuildResult) (slots : List (Option BuildResult))
    (k : Nat) : List (Option BuildResult) :=
  slots.set k (xs.get? k)

/-- `Promise.all` semantics: slots are filled in completion order
(`order` lists the indices in the order the builds finish), starting from
an array of unresolved slots. -/
def fillSlots (xs : List BuildResult) (order : List Nat) : List (Option BuildResult) :=
  order.foldl (fillSlot xs) (List.replicate xs.length none)

/-- Parallel mode: all builds are started, they complete in some order,
and `Promise.all` hands back the filled slot array. -/
def runAllParallel (ps : List Platform) (options : BuildOptions)
    (outcome : Platform → ChildEvent) (dur : Platform → Nat)
    (order : List Nat) : List BuildResult :=
  (fillSlots (ps.map (fun p => buildPlatform p options (outcome p) (dur p))) order).filterMap id

/-! ## Version field regexes

All four version-field regexes of the tooling share the shape
"anchored at a line start (`^` with the `m` flag), a fixed key pattern made
of literals and `\s*` gaps, then `([^"]+)"`".  We embed them over
`List Char`: a pattern is a token list, a match at a position yields the
matched key prefix (group 1 including the opening quote), the field value
(non-empty, quote-free) and the remainder after the closing quote.

`\s*` gaps are consumed by maximal munch; this is exact for these patterns
because every token following a gap starts with a non-whitespace character,
so the backtracking JS engine accepts exactly the maximal munch. -/

/-- JavaScript `\s` on the characters that occur in manifests:
space, tab, LF, CR, FF and VT. -/
def isJsSpace (c : Char) : Bool :=
  c = ' ' || c = '\t' || c = '\n' || c = '\r' || c = '\x0c' || c = '\x0b'

/-- One token of a key pattern: a literal run of characters, or a `\s*` gap. -/
inductive Tok
  | lit (cs : List Char)
  | ws
  deriving Repr

/-- Consume a literal: `dropLit l cs = some rest` iff `cs = l ++ rest`. -/
def dropLit : List Char → List Char → Option (List Char)
  | [], cs => some cs
  | _ :: _, [] => none
  | a :: l, c :: cs => if a = c then dropLit l cs else none

/-- Match a key pattern at the head of `cs`; returns the consumed
characters (group 1) and the remainder. -/
def matchKey : List Tok → List Char → Option (List Char × List Char)
  | [], cs => some ([], cs)
  | .lit l :: ps, cs =>
    (dropLit l cs).bind fun rest =>
      (matchKey ps rest).map (fun gr => (l ++ gr.1, gr.2))
  | .ws :: ps, cs =>
    (matchKey ps (cs.dropWhile isJsSpace)).map
      (fun gr => (cs.takeWhile isJsSpace ++ gr.1, gr.2))

/-- Match `([^"]+)"` at the head of `cs`: the value is the maximal
non-empty quote-free run, which must be followed by a closing quote.
The remainder of `cs` after the run is either empty (no quote anywhere,
so the required closing quote is missing) or necessarily starts with the
closing quote, so the check for it is a non-emptiness test. -/
def takeVal (cs : List Char) : Option (List Char × List Char) :=
  let v := cs.takeWhile (fun c => c ≠ '"')
  let r := cs.dropWhile (fun c => c ≠ '"')
  if v.isEmpty then none
  else if r.isEmpty then none
  else some (v, r.tail)

/-- Match the whole field pattern at the head of `cs`. -/
def matchField (pat : List Tok) (cs : List Char) :
    Option (List Char × List Char × List Char) :=
  (matchKey pat cs).bind fun gr =>
    (takeVal gr.2).map (fun vr => (gr.1, vr.1, vr.2))

/-- Scan for the leftmost line start where the field pattern matches
(`^...` with the `m` flag tries every line start, left to right).
The flag records whether the current position is a line start.
Returns `(before, group1, value, rest)`. -/
def findFieldAux (pat : List Tok) :
    List Char → Bool → Option (List Char × List Char × List Char × List Char)
  | [], atStart =>
    if atStart then (matchField pat []).map (fun x => (([] : List Char), x))
    else none
  | c :: cs', atStart =>
    if atStart ∧ (matchField pat (c :: cs')).isSome then
      (matchField pat (c :: cs')).map (fun x => (([] : List Char), x))
    else
      (findFieldAux pat cs' (c = '\n')).map (fun x => (c :: x.1, x.2))

/-- Leftmost match of a version-field regex in a whole text
(position 0 is a line start). -/
def findField (pat : List Tok) (cs : List Char) :
    Option (List Char × List Char × List Char × List Char) :=
  findFieldAux pat cs true

/-- Key pattern of `/^version\s*=\s*"([^"]+)"/m` and of the group-1 part of
`/^(version\s*=\s*")[^"]+(")/m` (workflow.ts and the commit script). -/
def quichePat : List Tok :=
  [.lit ('v' :: 'e' :: 'r' :: 's' :: 'i' :: 'o' :: 'n' :: []), .ws,
   .lit ('=' :: []), .ws, .lit ('"' :: [])]

/-- Key pattern of `/^\s*version\s*=\s*"([^"]+)"/m` and of the group-1 part
of `/^(\s*version\s*=\s*")[^"]+(".*)$/m` (the release script). -/
def releasePat : List Tok :=
  Tok.ws :: quichePat

/-- Key pattern of `/^(quiche\s*=\s*\x7b\s*version\s*=\s*")[^"]+(")/m`
(the workspace Cargo.toml dependency line rewritten by workflow.ts). -/
def workspacePat : List Tok :=
  [.lit ('q' :: 'u' :: 'i' :: 'c' :: 'h' :: 'e' :: []), .ws,
   .lit ('=' :: []), .ws, .lit ('\x7b' :: []), .ws] ++ quichePat

/-- Replace the value of the first matching version field, leaving every
other character of the text unchanged; identity when there is no match
(JS `String.replace` returns the receiver unchanged then).  For the release
script's regex the second group captures `"` plus the rest of the line and
is restored verbatim by `$2`, so its replacement is this same splice. -/
def spliceField (pat : List Tok) (text : String) (newVal : String) : String :=
  match findField pat text.data with
  | some (b, g, _, rest) => String.mk (b ++ g ++ newVal.data ++ '"' :: rest)
  | none => text

/-- `updateQuicheVersion` of workflow.ts applied to the manifest text:
`content.replace(/^(version\s*=\s*")[^"]+(")/m, $1newVersion$2)`.
The new version never contains `$`, so the template is a plain splice. -/
def updateQuicheVersionM (text newVersion : String) : String :=
  spliceField quichePat text newVersion

/-- `updateWorkspaceVersion` of workflow.ts applied to the workspace
manifest text. -/
def updateWorkspaceVersionM (text newVersion : String) : String :=
  spliceField workspacePat text newVersion

/-- `updateVersion` of the release script applied to the manifest text
(its regex additionally tolerates leading whitespace on the line). -/
def updateVersionReleaseM (text newVersion : String) : String :=
  spliceField releasePat text newVersion

/-! ## Version parsing, formatting and bumping -/

/-- `Version` from workflow.ts.  The components are JavaScript numbers
produced by `Number(...)`; integer values are modelled as `Int`
(the parsers accept negative components, see `parseVersionW`). -/
structure Version where
  major : Int
  minor : Int
  patch : Int
  deriving DecidableEq, Repr

/-- JavaScript `s.split('.')` with a single-character separator, defined
structurally over the characters: separators delimit (possibly empty)
pieces, and the empty string splits to one empty piece. -/
def splitDotAux : List Char → List Char → List String
  | [], acc => [String.mk acc.reverse]
  | c :: cs, acc =>
    if c = '.' then String.mk acc.reverse :: splitDotAux cs []
    else splitDotAux cs (c :: acc)

/-- `s.split('.')` on a whole string. -/
def jsSplitDot (s : String) : List String :=
  splitDotAux s.data []

/-- JavaScript `s.trim()` on the whitespace that occurs in command
output. -/
def jsTrim (s : String) : String :=
  String.mk (((s.data.dropWhile isJsSpace).reverse.dropWhile isJsSpace).reverse)

/-- Digit run to a natural number. -/
def digitsVal (cs : List Char) : Nat :=
  cs.foldl (fun a c => a * 10 + (c.toNat - '0'.toNat)) 0

/-- Value of a non-empty all-digit run, `none` otherwise. -/
def digitsToInt (cs : List Char) : Option Int :=
  if cs.isEmpty then none
  else if cs.all Char.isDigit then some (digitsVal cs) else none

/-- JavaScript `Number(s)` on the strings that occur as dot-separated
version components, with `none` standing for `NaN`: whitespace is trimmed,
the empty string is `0`, and an optional single sign followed by a decimal
digit run is the signed value.  (Exponent / hex / `Infinity` forms never
appear in version fields and are not modelled.) -/
def jsNumber (s : String) : Option Int :=
  let t := (s.data.dropWhile isJsSpace).reverse.dropWhile isJsSpace |>.reverse
  match t with
  | [] => some 0
  | '+' :: rest => digitsToInt rest
  | '-' :: rest => (digitsToInt rest).map (fun n => -n)
  | rest => digitsToInt rest

/-- JavaScript array indexing on a destructured `split('.').map(Number)`
result: a missing element is `undefined`, which behaves like `NaN` in the
`isNaN` checks and the arithmetic below, so both collapse to `none`. -/
def jsNth (l : List (Option Int)) (i : Nat) : Option Int :=
  (l.get? i).join

/-- Kind of version bump. -/
inductive BumpKind
  | major
  | minor
  | patch
  deriving DecidableEq, Repr

/-- `parseVersion` of workflow.ts: split on `.`, map `Number`, destructure
the first three components, and fail iff any of them is `NaN`
(missing components are `undefined`, also caught by `isNaN`;
extra components are silently ignored, and signs are accepted). -/
def parseVersionW (s : String) : Except String Version :=
  let parts := (jsSplitDot s).map jsNumber
  match jsNth parts 0, jsNth parts 1, jsNth parts 2 with
  | some a, some b, some c => .ok ⟨a, b, c⟩
  | _, _, _ => .error ("Invalid version format: " ++ s)

/-- `formatVersion` of workflow.ts / the release script. -/
def formatVersion (v : Version) : String :=
  toString v.major ++ "." ++ toString v.minor ++ "." ++ toString v.patch

/-- `bumpVersion` of workflow.ts (record-level). -/
def bumpVersion (current : Version) : BumpKind → Version
  | .major => ⟨current.major + 1, 0, 0⟩
  | .minor => ⟨current.major, current.minor + 1, 0⟩
  | .patch => ⟨current.major, current.minor, current.patch + 1⟩

/-- JavaScript string interpolation of a number that may be `NaN`. -/
def jsNumToString : Option Int → String
  | some n => toString n
  | none => "NaN"

/-- JavaScript `x + 1` on a number that may be `NaN` or `undefined`. -/
def jsAdd1 : Option Int → Option Int
  | some n => some (n + 1)
  | none => none

/-- `bumpVersion` of the commit script (string-level): its `parseVersion`
destructures `version.split('.').map(Number)` without any validation, then
each case rebuilds the string with a template literal. -/
def commitBumpVersion (s : String) (k : BumpKind) : String :=
  let parts := (jsSplitDot s).map jsNumber
  let major := jsNth parts 0
  let minor := jsNth parts 1
  let patch := jsNth parts 2
  match k with
  | .major => jsNumToString (jsAdd1 major) ++ ".0.0"
  | .minor => jsNumToString major ++ "." ++ jsNumToString (jsAdd1 minor) ++ ".0"
  | .patch => jsNumToString major ++ "." ++ jsNumToString minor ++ "." ++ jsNumToString (jsAdd1 patch)

/-! ## Reading the version from a manifest -/

/-- `getCurrentVersion` of workflow.ts (and, identically, of the commit
script): the first match of `/^version\s*=\s*"([^"]+)"/m`, or the literal
default `'1.0.0'` when the pattern is absent. -/
def getCurrentVersionW (text : String) : String :=
  match findField quichePat text.data with
  | some (_, _, v, _) => String.mk v
  | none => "1.0.0"

/-- Failure modes of the release script's `getVersion`: it prints an error
and exits when the field pattern is absent, and likewise when
`parseVersion` rejects the field's value. -/
inductive ReadError
  | versionNotFound
  | versionParse (msg : String)
  deriving DecidableEq, Repr

/-- `parseVersion` of the release script: split on `.`, map `Number`, and
fail unless there are exactly three components none of which is `NaN`. -/
def parseVersionRelease (s : String) : Except String Version :=
  let parts := (jsSplitDot s).map jsNumber
  if parts.length ≠ 3 || parts.any (fun p => p.isNone) then
    .error ("invalid version format: " ++ s)
  else
    .ok ⟨(jsNth parts 0).getD 0, (jsNth parts 1).getD 0, (jsNth parts 2).getD 0⟩

/-- `getVersion` of the release script: match
`/^\s*version\s*=\s*"([^"]+)"/m`, exit with an error when absent, then
parse the captured value, exiting with an error when parsing fails. -/
def getVersionRelease (text : String) : Except ReadError Version :=
  match findField releasePat text.data with
  | none => .error .versionNotFound
  | some (_, _, v, _) =>
    match parseVersionRelease (String.mk v) with
    | .ok ver => .ok ver
    | .error e => .error (.versionParse e)

/-! ## Workflow orchestrator (`src/scripts/workflow.ts`)

`main()` of workflow.ts is modelled as a function of the operator's
decisions at each interactive prompt and the outcomes of the spawned
commands, producing the trace of externally visible events together with
the final manifest contents and workflow flags.  Terminal output
(notes, spinners, colours) is presentation only and not modelled. -/

/-- An interactive prompt either delivers a value or is cancelled
(`isCancel`). -/
inductive PromptR (α : Type)
  | cancelled
  | value (a : α)
  deriving DecidableEq, Repr

/-- Outcome of a command run through the silent `exec` helper:
the child's stdout on success, or any failure (non-zero exit, spawn
error). -/
inductive ExecOut
  | ok (stdout : String)
  | fail
  deriving DecidableEq, Repr

/-- The silent `exec` helper of workflow.ts: the trimmed stdout on
success, and the empty string on every failure (the catch block). -/
def execSilent : ExecOut → String
  | .ok s => jsTrim s
  | .fail => ""

/-- `checkGitClean` of workflow.ts: the silent `git status --porcelain`
output compared against the empty string. -/
def checkGitCleanM (g : ExecOut) : Bool :=
  execSilent g == ""

/-- The choice offered by the version-management select prompt. -/
inductive VAction
  | skip
  | bump (k : BumpKind)
  | custom
  deriving DecidableEq, Repr

/-- Operator decisions and command outcomes for one `runScript` call. -/
structure ScriptDec where
  run : PromptR Bool
  execOk : Bool
  contAnyway : PromptR Bool
  deriving DecidableEq, Repr

/-- Externally visible events of one workflow run. -/
inductive WEvent
  | warnDirty
  | writeQuiche
  | writeWorkspace
  | spawnBuild
  | spawnPackage
  | spawnCommit
  | spawnRelease
  deriving DecidableEq, Repr

/-- All operator decisions and command outcomes of one workflow run. -/
structure WDecisions where
  gitStatus : ExecOut
  proceedDirty : PromptR Bool
  versionAction : PromptR VAction
  customVersion : PromptR String
  quicheWriteOk : Bool
  workspaceWriteOk : Bool
  buildScript : ScriptDec
  packageScript : ScriptDec
  gitStatus2 : ExecOut
  commitScript : ScriptDec
  shouldRelease : PromptR Bool
  releaseScript : ScriptDec
  deriving DecidableEq, Repr

/-- Result of the workflow run: event trace, final manifest texts, the
workflow flags, and the exit code when the process exited early
(`none` when `main` ran to its outro). -/
structure WFinal where
  trace : List WEvent
  quiche : String
  workspace : String
  versionChanged : Bool
  buildRan : Bool
  exit : Option Nat
  deriving DecidableEq, Repr

/-- Result of one `runScript` call. -/
inductive ScriptRes
  | ran
  | skipped
  | failedContinue
  | exited (code : Nat)
  deriving DecidableEq, Repr

/-- `runScript` of workflow.ts: confirm (cancel exits 0, decline skips),
run the npm script (the spawn is the event), and on failure ask whether to
continue (cancel or decline exits 1; continuing reports `false`). -/
def runScriptM (sd : ScriptDec) (ev : WEvent) : List WEvent × ScriptRes :=
  match sd.run with
  | .cancelled => ([], .exited 0)
  | .value false => ([], .skipped)
  | .value true =>
    if sd.execOk then ([ev], .ran)
    else
      match sd.contAnyway with
      | .cancelled => ([ev], .exited 1)
      | .value false => ([ev], .exited 1)
      | .value true => ([ev], .failedContinue)

/-- The initial git-clean check: when the tree is not clean the warning is
shown and the operator must confirm; cancelling or declining exits 0. -/
def preludeEvents (d : WDecisions) : List WEvent × Bool :=
  if checkGitCleanM d.gitStatus then ([], false)
  else
    match d.proceedDirty with
    | .cancelled => ([.warnDirty], true)
    | .value false => ([.warnDirty], true)
    | .value true => ([.warnDirty], false)

/-- How the version-management step ended. -/
inductive VerRes
  | cancelled
  | writeFailed
  | done (newVersion : String) (versionChanged : Bool)
  deriving DecidableEq, Repr

/-- The two manifest writes of the version update, in program order:
`updateQuicheVersion` then `updateWorkspaceVersion`.  A failing write
throws, so a failure of the first suppresses the second, while a failure
of the second leaves the first write on disk; `versionChanged` is only set
after both succeed. -/
def applyVersionWrites (d : WDecisions) (q w nv : String) :
    List WEvent × String × String × VerRes :=
  if d.quicheWriteOk then
    let q' := updateQuicheVersionM q nv
    if d.workspaceWriteOk then
      ([.writeQuiche, .writeWorkspace], q', updateWorkspaceVersionM w nv, .done nv true)
    else
      ([.writeQuiche], q', w, .writeFailed)
  else
    ([], q, w, .writeFailed)

/-- Step 1 of `main`: the version select prompt, the optional custom
version text prompt, and the manifest writes.  `skip` keeps the current
version and writes nothing. -/
def versionPhase (d : WDecisions) (cur : Version) (curStr q w : String) :
    List WEvent × String × String × VerRes :=
  match d.versionAction with
  | .cancelled => ([], q, w, .cancelled)
  | .value .skip => ([], q, w, .done curStr false)
  | .value .custom =>
    match d.customVersion with
    | .cancelled => ([], q, w, .cancelled)
    | .value cv => applyVersionWrites d q w cv
  | .value (.bump k) => applyVersionWrites d q w (formatVersion (bumpVersion cur k))

/-- Step 5 of `main`: the release confirmation and the release script. -/
def releasePhase (d : WDecisions) (acc : List WEvent) (q w : String)
    (changed buildRan : Bool) : WFinal :=
  match d.shouldRelease with
  | .cancelled => ⟨acc, q, w, changed, buildRan, some 0⟩
  | .value false => ⟨acc, q, w, changed, buildRan, none⟩
  | .value true =>
    match runScriptM d.releaseScript .spawnRelease with
    | (e, .exited c) => ⟨acc ++ e, q, w, changed, buildRan, some c⟩
    | (e, _) => ⟨acc ++ e, q, w, changed, buildRan, none⟩

/-- Step 4 of `main`: the commit script is only offered when the version
changed or a build ran, and only when the tree is not clean. -/
def commitPhase (d : WDecisions) (acc : List WEvent) (q w : String)
    (changed buildRan : Bool) : WFinal :=
  if (changed || buildRan) && !(checkGitCleanM d.gitStatus2) then
    match runScriptM d.commitScript .spawnCommit with
    | (e, .exited c) => ⟨acc ++ e, q, w, changed, buildRan, some c⟩
    | (e, _) => releasePhase d (acc ++ e) q w changed buildRan
  else
    releasePhase d acc q w changed buildRan

/-- Step 3 of `main`: the package script is only offered when the build
script actually ran. -/
def packagePhase (d : WDecisions) (acc : List WEvent) (q w : String)
    (changed buildRan : Bool) : WFinal :=
  if buildRan then
    match runScriptM d.packageScript .spawnPackage with
    | (e, .exited c) => ⟨acc ++ e, q, w, changed, buildRan, some c⟩
    | (e, _) => commitPhase d (acc ++ e) q w changed buildRan
  else
    commitPhase d acc q w changed buildRan

/-- Step 2 of `main`: the build script.  `buildRan` is `true` exactly when
the script ran and succeeded. -/
def buildPhase (d : WDecisions) (acc : List WEvent) (q w : String)
    (changed : Bool) : WFinal :=
  match runScriptM d.buildScript .spawnBuild with
  | (e, .exited c) => ⟨acc ++ e, q, w, changed, false, some c⟩
  | (e, .ran) => packagePhase d (acc ++ e) q w changed true
  | (e, _) => packagePhase d (acc ++ e) q w changed false

/-- `main` of workflow.ts over initial manifest texts `q` (quiche/Cargo.toml)
and `w` (workspace Cargo.toml): git-clean precondition, version read and
parse (a parse throw is fatal via `main().catch`), version phase, then the
build / package / commit / release phases. -/
def wRun (d : WDecisions) (q w : String) : WFinal :=
  match preludeEvents d with
  | (e0, true) => ⟨e0, q, w, false, false, some 0⟩
  | (e0, false) =>
    let curStr := getCurrentVersionW q
    match parseVersionW curStr with
    | .error _ => ⟨e0, q, w, false, false, some 1⟩
    | .ok cur =>
      match versionPhase d cur curStr q w with
      | (e1, q', w', .cancelled) => ⟨e0 ++ e1, q', w', false, false, some 0⟩
      | (e1, q', w', .writeFailed) => ⟨e0 ++ e1, q', w', false, false, some 1⟩
      | (e1, q', w', .done _ changed) => buildPhase d (e0 ++ e1) q' w' changed

/-! ## Event classifiers -/

/-- Is this event the quiche manifest write? -/
def isWriteQuiche : WEvent → Bool
  | .writeQuiche => true
  | _ => false

/-- Is this event the workspace manifest write? -/
def isWriteWorkspace : WEvent → Bool
  | .writeWorkspace => true
  | _ => false

/-- Is this event a manifest version write? -/
def isVersionWrite (e : WEvent) : Bool :=
  isWriteQuiche e || isWriteWorkspace e

/-- Is this event the spawn of the build script? -/
def isSpawnBuild : WEvent → Bool
  | .spawnBuild => true
  | _ => false

/-- Is this event the spawn of one of the phase scripts? -/
def isSpawnEv : WEvent → Bool
  | .spawnBuild => true
  | .spawnPackage => true
  | .spawnCommit => true
  | .spawnRelease => true
  | _ => false

/-- Is this event the dirty-tree warning? -/
def isWarnDirty : WEvent → Bool
  | .warnDirty => true
  | _ => false

/-! ## Helper lemmas -/

/-- `a || b` is truthy when `b` is. -/
lemma jsOr_ne_empty (a b : String) (hb : b ≠ "") : jsOr a b ≠ "" := by
  unfold jsOr
  split
  · exact hb
  · assumption

/-- The generic exit-code message is never empty. -/
lemma exitMsg_ne_empty (code : Int) :
    ("Build failed with exit code " ++ toString code) ≠ "" := by
  intro h
  have h2 := congrArg String.length h
  rw [String.length_append] at h2
  have h3 : ("Build failed with exit code " : String).length = 28 := rfl
  have h4 : ("" : String).length = 0 := rfl
  omega

/-! ## C1: build executor result contract -/

/-- C1 (amended): exit code 0 yields `success = true`, no error and the
output path derived from the toolchain triple and the mode; a non-zero
exit yields `success = false`, a non-empty error and no output path; a
spawn-level error yields `success = false`, an error equal to the spawn
error's message (which the code does not guard against being empty) and
no output path. -/
theorem c1_build_result_contract (p : Platform) (options : BuildOptions)
    (dur : Nat) (code : Int) (out err msg : String) (hc : code ≠ 0) :
    (buildPlatform p options (.closed 0 out err) dur).success = true ∧
    (buildPlatform p options (.closed 0 out err) dur).error = none ∧
    (buildPlatform p options (.closed 0 out err) dur).outputPath =
      some (expectedOutputPath p options) ∧
    (buildPlatform p options (.closed code out err) dur).success = false ∧
    (∃ e, (buildPlatform p options (.closed code out err) dur).error = some e ∧
      e ≠ "") ∧
    (buildPlatform p options (.closed code out err) dur).outputPath = none ∧
    (buildPlatform p options (.errored msg) dur).success = false ∧
    (buildPlatform p options (.errored msg) dur).error = some msg ∧
    (buildPlatform p options (.errored msg) dur).outputPath = none := by
  refine ⟨?_, ?_, ?_, ?_, ?_, ?_, rfl, rfl, rfl⟩
  · simp [buildPlatform]
  · simp [buildPlatform]
  · cases p.target <;> simp [buildPlatform, expectedOutputPath]
  · simp [buildPlatform, hc]
  · simp only [buildPlatform, if_neg hc]
    exact ⟨_, rfl, jsOr_ne_empty _ _ (jsOr_ne_empty _ _ (exitMsg_ne_empty code))⟩
  · simp [buildPlatform, hc]

/-- C1 witness: the contract evaluated at a concrete platform, options,
exit code 1 and a concrete spawn error. -/
theorem c1_build_result_contract_witness :
    (1 : Int) ≠ 0 ∧
    ((buildPlatform ⟨"native", none⟩ ⟨.release, ["ffi"], false, false⟩
        (.closed 0 "" "") 7).success = true ∧
      (buildPlatform ⟨"native", none⟩ ⟨.release, ["ffi"], false, false⟩
        (.closed 0 "" "") 7).error = none ∧
      (buildPlatform ⟨"native", none⟩ ⟨.release, ["ffi"], false, false⟩
        (.closed 0 "" "") 7).outputPath =
        some (expectedOutputPath ⟨"native", none⟩ ⟨.release, ["ffi"], false, false⟩) ∧
      (buildPlatform ⟨"native", none⟩ ⟨.release, ["ffi"], false, false⟩
        (.closed 1 "" "") 7).success = false ∧
      (∃ e, (buildPlatform ⟨"native", none⟩ ⟨.release, ["ffi"], false, false⟩
        (.closed 1 "" "") 7).error = some e ∧ e ≠ "") ∧
      (buildPlatform ⟨"native", none⟩ ⟨.release, ["ffi"], false, false⟩
        (.closed 1 "" "") 7).outputPath = none ∧
      (buildPlatform ⟨"native", none⟩ ⟨.release, ["ffi"], false, false⟩
        (.errored "spawn cargo ENOENT") 7).success = false ∧
      (buildPlatform ⟨"native", none⟩ ⟨.release, ["ffi"], false, false⟩
        (.errored "spawn cargo ENOENT") 7).error = some "spawn cargo ENOENT" ∧
      (buildPlatform ⟨"native", none⟩ ⟨.release, ["ffi"], false, false⟩
        (.errored "spawn cargo ENOENT") 7).outputPath = none) :=
  ⟨by decide, c1_build_result_contract _ _ _ _ _ _ _ (by decide)⟩

/-- C1 counterexample: on a spawn-level error whose message is empty
(`error.message` is copied with no fallback, unlike the non-zero-exit
branch), the recorded error string is empty, refuting "error is
non-empty" for spawn-level errors. -/
theorem c1_counterexample :
    (buildPlatform ⟨"native", none⟩ ⟨.release, ["ffi"], false, false⟩
      (.errored "") 7).success = false ∧
    (buildPlatform ⟨"native", none⟩ ⟨.release, ["ffi"], false, false⟩
      (.errored "") 7).error = some "" ∧
    (buildPlatform ⟨"native", none⟩ ⟨.release, ["ffi"], false, false⟩
      (.errored "") 7).outputPath = none :=
  ⟨rfl, rfl, rfl⟩

/-! ## C8: verbose flag and the build result -/

/-- C8 (amended): for a fixed child outcome, toggling `verbose` never
changes `success`, `outputPath`, the presence of an error, the duration or
the platform of the returned result.  (The error's text can differ on a
non-zero exit: quiet mode surfaces the captured output, verbose mode the
generic exit-code message.) -/
theorem c8_verbose_presentation_only (p : Platform) (mode : Mode)
    (features : List String) (par : Bool) (ev : ChildEvent) (dur : Nat) :
    (buildPlatform p ⟨mode, features, par, true⟩ ev dur).success =
      (buildPlatform p ⟨mode, features, par, false⟩ ev dur).success ∧
    (buildPlatform p ⟨mode, features, par, true⟩ ev dur).outputPath =
      (buildPlatform p ⟨mode, features, par, false⟩ ev dur).outputPath ∧
    (buildPlatform p ⟨mode, features, par, true⟩ ev dur).error.isSome =
      (buildPlatform p ⟨mode, features, par, false⟩ ev dur).error.isSome ∧
    (buildPlatform p ⟨mode, features, par, true⟩ ev dur).duration =
      (buildPlatform p ⟨mode, features, par, false⟩ ev dur).duration ∧
    (buildPlatform p ⟨mode, features, par, true⟩ ev dur).platform =
      (buildPlatform p ⟨mode, features, par, false⟩ ev dur).platform := by
  cases ev with
  | closed code out err =>
    by_cases h : code = 0 <;> simp [buildPlatform, h]
  | errored msg => simp [buildPlatform]

/-- C8 counterexample: with exit code 1 and stderr text `boom`, quiet mode
records the captured output as the error while verbose mode records the
generic exit-code message, so the two results are not identical in
content. -/
theorem c8_counterexample :
    (buildPlatform ⟨"native", none⟩ ⟨.release, [], false, true⟩
        (.closed 1 "" "boom") 7).error ≠
      (buildPlatform ⟨"native", none⟩ ⟨.release, [], false, false⟩
        (.closed 1 "" "boom") 7).error ∧
    (buildPlatform ⟨"native", none⟩ ⟨.release, [], false, true⟩
        (.closed 1 "" "boom") 7).error = some "Build failed with exit code 1" ∧
    (buildPlatform ⟨"native", none⟩ ⟨.release, [], false, false⟩
        (.closed 1 "" "boom") 7).error = some "boom" := by
  refine ⟨by decide, rfl, rfl⟩

/-! ## C2: order preservation of runAll -/

/-- Pushing mapped elements one at a time is `map`. -/
lemma foldl_push_eq_map {α β : Type} (f : α → β) :
    ∀ (l : List α) (acc : List β),
      l.foldl (fun acc p => acc ++ [f p]) acc = acc ++ l.map f := by
  intro l
  induction l with
  | nil => intro acc; simp
  | cons a l ih => intro acc; simp [ih]

/-- `get?` after `set`. -/
lemma get?_set {α : Type} :
    ∀ (l : List α) (k i : Nat) (a : α),
      (l.set k a).get? i =
        if i = k ∧ i < l.length then some a else l.get? i := by
  intro l
  induction l with
  | nil => intro k i a; simp
  | cons hd tl ih =>
    intro k i a
    cases k with
    | zero =>
      cases i with
      | zero => simp
      | succ i => simp
    | succ k =>
      cases i with
      | zero => simp
      | succ i =>
        simp only [List.set, List.get?]
        rw [ih]
        by_cases h : i = k ∧ i < tl.length
        · rw [if_pos h, if_pos (show i + 1 = k + 1 ∧ i + 1 < (hd :: tl).length by
            simp only [List.length_cons]; omega)]
        · rw [if_neg h, if_neg (show ¬(i + 1 = k + 1 ∧ i + 1 < (hd :: tl).length) by
            simp only [List.length_cons]; omega)]

/-- Filling slots preserves the array length. -/
lemma foldl_fillSlot_length (xs : List BuildResult) :
    ∀ (order : List Nat) (slots : List (Option BuildResult)),
      (order.foldl (fillSlot xs) slots).length = slots.length := by
  intro order
  induction order with
  | nil => intro slots; rfl
  | cons k rest ih => intro slots; simp [ih, fillSlot]

/-- After filling, a slot whose index completed holds that build's result;
other slots are untouched. -/
lemma foldl_fillSlot_get? (xs : List BuildResult) :
    ∀ (order : List Nat) (slots : List (Option BuildResult)) (i : Nat),
      i < slots.length →
      (order.foldl (fillSlot xs) slots).get? i =
        if i ∈ order then some (xs.get? i) else slots.get? i := by
  intro order
  induction order with
  | nil => intro slots i _; simp
  | cons k rest ih =>
    intro slots i hi
    simp only [List.foldl_cons]
    rw [ih (fillSlot xs slots k) i (by simpa [fillSlot] using hi)]
    by_cases hr : i ∈ rest
    · rw [if_pos hr, if_pos (by simp [hr])]
    · rw [if_neg hr]
      unfold fillSlot
      rw [get?_set]
      by_cases hk : i = k
      · subst hk
        rw [if_pos ⟨rfl, hi⟩, if_pos (by simp)]
      · rw [if_neg (by tauto), if_neg (by simp [hk, hr])]

/-- Lists agreeing on `get?` everywhere are equal. -/
lemma list_ext_get? {α : Type} :
    ∀ (l₁ l₂ : List α), (∀ i, l₁.get? i = l₂.get? i) → l₁ = l₂ := by
  intro l₁
  induction l₁ with
  | nil =>
    intro l₂ h
    cases l₂ with
    | nil => rfl
    | cons b l₂ => simpa using h 0
  | cons a l₁ ih =>
    intro l₂ h
    cases l₂ with
    | nil => simpa using h 0
    | cons b l₂ =>
      have h0 := h 0
      simp only [List.get?] at h0
      cases h0
      rw [ih l₂ (fun i => by simpa using h (i + 1))]

/-- `filterMap id` over a fully resolved slot array recovers the list. -/
lemma filterMap_id_map_some {α : Type} (l : List α) :
    (l.map some).filterMap id = l := by
  induction l with
  | nil => rfl
  | cons a l ih => simp [ih]

/-- When every index completes (the completion order is a permutation of
the index range), the slot array is the result list in input order. -/
lemma fillSlots_perm (xs : List BuildResult) (order : List Nat)
    (hperm : order.Perm (List.range xs.length)) :
    fillSlots xs order = xs.map some := by
  apply list_ext_get?
  intro i
  by_cases hi : i < xs.length
  · rw [fillSlots, foldl_fillSlot_get? xs order _ i (by simpa using hi)]
    rw [if_pos (hperm.mem_iff.2 (List.mem_range.2 hi))]
    have hm : (xs.map some).get? i = (xs.get? i).map some := by
      rw [List.get?_eq_getElem?, List.get?_eq_getElem?, List.getElem?_map]
    rw [hm]
    cases hx : xs.get? i with
    | none => exact absurd (List.get?_eq_none.1 hx) (by omega)
    | some val => rfl
  · have hx : xs.get? i = none := List.get?_eq_none.2 (by omega)
    have h1 : (fillSlots xs order).get? i = none := by
      apply List.get?_eq_none.2
      rw [fillSlots, foldl_fillSlot_length]
      simpa using by omega
    rw [h1, List.get?_map, hx]
    rfl

/-- C2: in both sequential and parallel mode, `runAll` returns exactly the
per-target results in input order — entry `i` is the result for target `i`
— and the parallel result does not depend on the completion order. -/
theorem c2_runAll_order (ps : List Platform) (options : BuildOptions)
    (outcome : Platform → ChildEvent) (dur : Platform → Nat)
    (order : List Nat) (i : Nat) (_hne : ps ≠ [])
    (hperm : order.Perm (List.range ps.length)) :
    runAllSequential ps options outcome dur =
      ps.map (fun p => buildPlatform p options (outcome p) (dur p)) ∧
    runAllParallel ps options outcome dur order =
      ps.map (fun p => buildPlatform p options (outcome p) (dur p)) ∧
    (runAllSequential ps options outcome dur).get? i =
      (ps.get? i).map (fun p => buildPlatform p options (outcome p) (dur p)) ∧
    (runAllParallel ps options outcome dur order).get? i =
      (ps.get? i).map (fun p => buildPlatform p options (outcome p) (dur p)) := by
  have hseq : runAllSequential ps options outcome dur =
      ps.map (fun p => buildPlatform p options (outcome p) (dur p)) := by
    unfold runAllSequential
    rw [foldl_push_eq_map]
    rfl
  have hpar : runAllParallel ps options outcome dur order =
      ps.map (fun p => buildPlatform p options (outcome p) (dur p)) := by
    unfold runAllParallel
    rw [fillSlots_perm _ _ (by simpa using hperm), filterMap_id_map_some]
  exact ⟨hseq, hpar, by rw [hseq, List.get?_map], by rw [hpar, List.get?_map]⟩

/-- C2 witness: two targets built in parallel, completing in reverse
order, still report in input order. -/
theorem c2_runAll_order_witness :
    ([1, 0].Perm (List.range ([(⟨"a", none⟩ : Platform), ⟨"b", some "t"⟩].length)) ∧
      ¬ ([(⟨"a", none⟩ : Platform), ⟨"b", some "t"⟩] = [])) ∧
    runAllParallel [⟨"a", none⟩, ⟨"b", some "t"⟩] ⟨.release, [], true, false⟩
        (fun _ => .closed 0 "" "") (fun _ => 1) [1, 0] =
      [⟨"a", none⟩, ⟨"b", some "t"⟩].map
        (fun p => buildPlatform p ⟨.release, [], true, false⟩ (.closed 0 "" "") 1) :=
  ⟨⟨by decide, by decide⟩,
    (c2_runAll_order [⟨"a", none⟩, ⟨"b", some "t"⟩] ⟨.release, [], true, false⟩
      (fun _ => .closed 0 "" "") (fun _ => 1) [1, 0] 0 (by decide) (by decide)).2.1⟩

/-! ## C6: version bump laws -/

/-- C6: the record-level bump laws of workflow.ts — major resets minor and
patch, minor resets patch, patch increments — and bumping twice always
differs from bumping once, so bumping is never idempotent. -/
theorem c6_bump_laws :
    (∀ v : Version,
      bumpVersion v .major = ⟨v.major + 1, 0, 0⟩ ∧
      bumpVersion v .minor = ⟨v.major, v.minor + 1, 0⟩ ∧
      bumpVersion v .patch = ⟨v.major, v.minor, v.patch + 1⟩) ∧
    (bumpVersion ⟨1, 2, 3⟩ .patch = ⟨1, 2, 4⟩ ∧
      bumpVersion ⟨1, 2, 3⟩ .minor = ⟨1, 3, 0⟩ ∧
      bumpVersion ⟨1, 2, 3⟩ .major = ⟨2, 0, 0⟩) ∧
    ∀ (v : Version) (k : BumpKind),
      bumpVersion (bumpVersion v k) k ≠ bumpVersion v k := by
  refine ⟨fun v => ⟨rfl, rfl, rfl⟩, ⟨by decide, by decide, by decide⟩, fun v k => ?_⟩
  cases k <;> simp [bumpVersion, Version.mk.injEq]

/-- C6 witness: non-idempotence evaluated at `1.2.3` with a patch bump. -/
theorem c6_bump_laws_witness :
    bumpVersion ⟨1, 2, 3⟩ .patch = ⟨1, 2, 4⟩ ∧
    bumpVersion (bumpVersion ⟨1, 2, 3⟩ .patch) .patch ≠ bumpVersion ⟨1, 2, 3⟩ .patch :=
  ⟨(c6_bump_laws.1 ⟨1, 2, 3⟩).2.2, c6_bump_laws.2.2 ⟨1, 2, 3⟩ .patch⟩

/-! ## C9: the two bump implementations agree -/

/-- Right-associate a trailing `.0.0`. -/
lemma append_dot_zero_zero (a : String) :
    a ++ "." ++ "0" ++ "." ++ "0" = a ++ ".0.0" := by
  rw [String.append_assoc, String.append_assoc, String.append_assoc]
  congr 1

/-- Right-associate a trailing `.0`. -/
lemma append_dot_zero (a b : String) :
    a ++ "." ++ b ++ "." ++ "0" = a ++ "." ++ b ++ ".0" := by
  rw [String.append_assoc]
  congr 1

/-- C9: whenever the workflow orchestrator's `parseVersion` accepts a
version string, the commit script's string-level `bumpVersion` agrees with
formatting the orchestrator's record-level bump of the parsed version,
for every bump kind. -/
theorem c9_bump_agreement (s : String) (k : BumpKind) (v : Version)
    (h : parseVersionW s = .ok v) :
    commitBumpVersion s k = formatVersion (bumpVersion v k) := by
  simp only [parseVersionW] at h
  split at h
  · next a b c ha hb hc =>
    cases h
    cases k with
    | major =>
      simp only [commitBumpVersion, ha, formatVersion, bumpVersion, jsAdd1, jsNumToString]
      rw [← append_dot_zero_zero]
      rfl
    | minor =>
      simp only [commitBumpVersion, ha, hb, formatVersion, bumpVersion, jsAdd1, jsNumToString]
      rw [← append_dot_zero]
      rfl
    | patch =>
      simp only [commitBumpVersion, ha, hb, hc, formatVersion, bumpVersion, jsAdd1, jsNumToString]
  · cases h

/-- C9 witness: agreement evaluated at `1.2.3` with a patch bump. -/
theorem c9_bump_agreement_witness :
    parseVersionW "1.2.3" = .ok ⟨1, 2, 3⟩ ∧
    commitBumpVersion "1.2.3" .patch = formatVersion (bumpVersion ⟨1, 2, 3⟩ .patch) :=
  ⟨by rfl, c9_bump_agreement "1.2.3" .patch ⟨1, 2, 3⟩ (by rfl)⟩

/-! ## C5: reading the version from a manifest -/

/-- A manifest text with no version field. -/
def noVersionText : String :=
  "[package]\nname = \"quiche\"\n"

/-- C5 counterexample: when the version field pattern is absent, the
workflow orchestrator's `getCurrentVersion` does not fail — it returns the
substitute default `1.0.0`, which then parses successfully, so the
workflow proceeds with a fabricated version instead of a
`VersionNotFound` failure. -/
theorem c5_counterexample :
    findField quichePat noVersionText.data = none ∧
    getCurrentVersionW noVersionText = "1.0.0" ∧
    parseVersionW (getCurrentVersionW noVersionText) = .ok ⟨1, 0, 0⟩ :=
  ⟨rfl, rfl, rfl⟩

/-- C5 (amended): the release script's `getVersion` does fail with a
not-found error when the field pattern is absent, and its `parseVersion`
fails whenever the value does not split into exactly three numeric
components; the workflow / commit scripts' `getCurrentVersion` instead
substitutes the default `1.0.0` when the pattern is absent, and the
workflow's `parseVersion` fails exactly when one of the first three
components is not numeric (extra components are ignored and negative
components are accepted by both parsers). -/
theorem c5_read_failure_modes :
    (∀ text : String, findField releasePat text.data = none →
      getVersionRelease text = .error .versionNotFound) ∧
    (∀ text : String, findField quichePat text.data = none →
      getCurrentVersionW text = "1.0.0") ∧
    (∀ s : String,
      (((jsSplitDot s).map jsNumber).length ≠ 3 ||
        ((jsSplitDot s).map jsNumber).any (fun p => p.isNone)) = true →
      ∃ e, parseVersionRelease s = .error e) ∧
    (∀ s : String,
      jsNth ((jsSplitDot s).map jsNumber) 0 = none ∨
        jsNth ((jsSplitDot s).map jsNumber) 1 = none ∨
        jsNth ((jsSplitDot s).map jsNumber) 2 = none →
      ∃ e, parseVersionW s = .error e) := by
  refine ⟨?_, ?_, ?_, ?_⟩
  · intro text h
    unfold getVersionRelease
    rw [h]
  · intro text h
    unfold getCurrentVersionW
    rw [h]
  · intro s h
    refine ⟨"invalid version format: " ++ s, ?_⟩
    simp only [parseVersionRelease]
    rw [if_pos h]
  · intro s h
    simp only [parseVersionW]
    rcases h with h | h | h
    · rw [h]
      cases jsNth ((jsSplitDot s).map jsNumber) 1 <;>
        cases jsNth ((jsSplitDot s).map jsNumber) 2 <;> exact ⟨_, rfl⟩
    · rw [h]
      cases jsNth ((jsSplitDot s).map jsNumber) 0 <;>
        cases jsNth ((jsSplitDot s).map jsNumber) 2 <;> exact ⟨_, rfl⟩
    · rw [h]
      cases jsNth ((jsSplitDot s).map jsNumber) 0 <;>
        cases jsNth ((jsSplitDot s).map jsNumber) 1 <;> exact ⟨_, rfl⟩

/-- C5 witness: the failure modes evaluated on a concrete pattern-free
manifest and on the concrete two-component value `1.2`. -/
theorem c5_read_failure_modes_witness :
    (findField releasePat ("[package]\nname = \"x\"\n" : String).data = none ∧
      getVersionRelease "[package]\nname = \"x\"\n" = .error .versionNotFound) ∧
    ((((jsSplitDot "1.2").map jsNumber).length ≠ 3 ||
        ((jsSplitDot "1.2").map jsNumber).any (fun p => p.isNone)) = true ∧
      ∃ e, parseVersionRelease "1.2" = .error e) ∧
    (jsNth ((jsSplitDot "1.2").map jsNumber) 2 = none ∧
      ∃ e, parseVersionW "1.2" = .error e) :=
  ⟨⟨rfl, c5_read_failure_modes.1 "[package]\nname = \"x\"\n" rfl⟩,
    ⟨by decide, c5_read_failure_modes.2.2.1 "1.2" (by decide)⟩,
    ⟨rfl, c5_read_failure_modes.2.2.2 "1.2" (Or.inr (Or.inr rfl))⟩⟩

/-! ## C7: in-place version substitution preserves all other characters -/

/-- Every element kept by `takeWhile` satisfies the predicate. -/
lemma takeWhile_all_sat {α : Type} (p : α → Bool) :
    ∀ (l : List α) (x : α), x ∈ l.takeWhile p → p x = true := by
  intro l
  induction l with
  | nil => intro x hx; cases hx
  | cons a l ih =>
    intro x hx
    rw [List.takeWhile_cons] at hx
    by_cases hp : p a = true
    · rw [if_pos hp] at hx
      cases hx with
      | head => exact hp
      | tail _ hx' => exact ih x hx'
    · rw [if_neg hp] at hx
      cases hx

/-- The head of the remainder of `dropWhile` fails the predicate. -/
lemma dropWhile_head_not {α : Type} (p : α → Bool) :
    ∀ (l : List α) (c : α) (r : List α),
      l.dropWhile p = c :: r → p c = false := by
  intro l
  induction l with
  | nil => intro c r h; cases h
  | cons a l ih =>
    intro c r h
    rw [List.dropWhile_cons] at h
    by_cases hp : p a = true
    · rw [if_pos hp] at h
      exact ih c r h
    · rw [if_neg hp] at h
      cases h
      simpa using hp

/-- `dropLit` soundness: the consumed literal is a prefix. -/
lemma dropLit_sound :
    ∀ (l cs rest : List Char), dropLit l cs = some rest → cs = l ++ rest := by
  intro l
  induction l with
  | nil =>
    intro cs rest h
    simp only [dropLit, Option.some.injEq] at h
    simp [h]
  | cons a l ih =>
    intro cs rest h
    cases cs with
    | nil => simp [dropLit] at h
    | cons c cs' =>
      simp only [dropLit] at h
      split at h
      · next hac => simp [← hac, ih cs' rest h]
      · cases h

/-- `matchKey` soundness: group 1 is a prefix. -/
lemma matchKey_sound :
    ∀ (ps : List Tok) (cs g r : List Char),
      matchKey ps cs = some (g, r) → cs = g ++ r := by
  intro ps
  induction ps with
  | nil =>
    intro cs g r h
    simp only [matchKey, Option.some.injEq, Prod.mk.injEq] at h
    simp [← h.1, ← h.2]
  | cons t ps ih =>
    intro cs g r h
    cases t with
    | lit l =>
      simp only [matchKey] at h
      cases hd : dropLit l cs with
      | none => rw [hd] at h; cases h
      | some rest =>
        rw [hd] at h
        simp only [Option.some_bind] at h
        cases hm : matchKey ps rest with
        | none => rw [hm] at h; cases h
        | some gr =>
          rw [hm] at h
          simp only [Option.map_some', Option.some.injEq, Prod.mk.injEq] at h
          obtain ⟨h1, h2⟩ := h
          subst h1
          subst h2
          rw [dropLit_sound l cs rest hd, ih rest gr.1 gr.2 (by rw [hm]),
            List.append_assoc]
    | ws =>
      simp only [matchKey] at h
      cases hm : matchKey ps (cs.dropWhile isJsSpace) with
      | none => rw [hm] at h; cases h
      | some gr =>
        rw [hm] at h
        simp only [Option.map_some', Option.some.injEq, Prod.mk.injEq] at h
        obtain ⟨h1, h2⟩ := h
        subst h1
        subst h2
        conv_lhs => rw [← List.takeWhile_append_dropWhile isJsSpace cs]
        rw [ih (cs.dropWhile isJsSpace) gr.1 gr.2 (by rw [hm]),
          List.append_assoc]

/-- `takeVal` soundness: the value is a non-empty quote-free run followed
by the closing quote. -/
lemma takeVal_sound (cs v rest : List Char) (h : takeVal cs = some (v, rest)) :
    cs = v ++ '"' :: rest ∧ v ≠ [] ∧ v.all (fun c => c ≠ '"') = true := by
  simp only [takeVal] at h
  split at h
  · cases h
  · next hv =>
    split at h
    · cases h
    · next hr =>
      simp only [Option.some.injEq, Prod.mk.injEq] at h
      obtain ⟨h1, h2⟩ := h
      subst h1
      subst h2
      set p : Char → Bool := fun c => decide (c ≠ '"') with hp
      refine ⟨?_, by simpa [List.isEmpty_iff] using hv, ?_⟩
      · cases hd : cs.dropWhile p with
        | nil => rw [hd] at hr; simp at hr
        | cons c0 r0 =>
          have hc0 : p c0 = false := dropWhile_head_not p cs c0 r0 hd
          have hc0' : c0 = '"' := by simpa [hp] using hc0
          conv_lhs => rw [← List.takeWhile_append_dropWhile p cs]
          rw [hd, hc0']
          rfl
      · exact List.all_eq_true.2 fun c hc => takeWhile_all_sat p cs c hc

/-- `matchField` soundness. -/
lemma matchField_sound (pat : List Tok) (cs g v rest : List Char)
    (h : matchField pat cs = some (g, v, rest)) :
    cs = g ++ v ++ '"' :: rest ∧ v ≠ [] ∧ v.all (fun c => c ≠ '"') = true := by
  simp only [matchField] at h
  cases hk : matchKey pat cs with
  | none => rw [hk] at h; cases h
  | some gr =>
    rw [hk] at h
    simp only [Option.some_bind] at h
    cases ht : takeVal gr.2 with
    | none => rw [ht] at h; cases h
    | some vr =>
      rw [ht] at h
      simp only [Option.map_some', Option.some.injEq, Prod.mk.injEq] at h
      obtain ⟨h1, h2, h3⟩ := h
      subst h1
      subst h2
      subst h3
      have hk' := matchKey_sound pat cs gr.1 gr.2 (by rw [hk])
      have ht' := takeVal_sound gr.2 vr.1 vr.2 (by rw [ht])
      exact ⟨by rw [hk', ht'.1, List.append_assoc], ht'.2⟩

/-- `findFieldAux` soundness: the input decomposes as
`before ++ group1 ++ value ++ '"' :: rest`. -/
lemma findFieldAux_sound (pat : List Tok) :
    ∀ (cs : List Char) (flag : Bool) (b g v rest : List Char),
      findFieldAux pat cs flag = some (b, g, v, rest) →
      cs = b ++ g ++ v ++ '"' :: rest ∧ v ≠ [] ∧
        v.all (fun c => c ≠ '"') = true := by
  intro cs
  induction cs with
  | nil =>
    intro flag b g v rest h
    simp only [findFieldAux] at h
    split at h
    · cases hm : matchField pat [] with
      | none => rw [hm] at h; cases h
      | some x =>
        obtain ⟨x1, x2, x3⟩ := x
        rw [hm] at h
        simp only [Option.map_some', Option.some.injEq, Prod.mk.injEq] at h
        obtain ⟨h1, h2, h3, h4⟩ := h
        subst h1
        subst h2
        subst h3
        subst h4
        have := matchField_sound pat [] x1 x2 x3 hm
        exact this
    · cases h
  | cons c cs' ih =>
    intro flag b g v rest h
    simp only [findFieldAux] at h
    split at h
    · cases hm : matchField pat (c :: cs') with
      | none => rw [hm] at h; cases h
      | some x =>
        obtain ⟨x1, x2, x3⟩ := x
        rw [hm] at h
        simp only [Option.map_some', Option.some.injEq, Prod.mk.injEq] at h
        obtain ⟨h1, h2, h3, h4⟩ := h
        subst h1
        subst h2
        subst h3
        subst h4
        have := matchField_sound pat (c :: cs') x1 x2 x3 hm
        simpa using this
    · cases hd : findFieldAux pat cs' (c = '\n') with
      | none => rw [hd] at h; cases h
      | some x =>
        obtain ⟨x1, x2, x3, x4⟩ := x
        rw [hd] at h
        simp only [Option.map_some', Option.some.injEq, Prod.mk.injEq] at h
        obtain ⟨h1, h2, h3, h4⟩ := h
        subst h1
        subst h2
        subst h3
        subst h4
        have := ih (c = '\n') x1 x2 x3 x4 hd
        refine ⟨?_, this.2⟩
        simp only [List.cons_append]
        rw [this.1]

/-- C7: when a manifest text contains a line matching the version field
pattern, rewriting the version (workflow.ts `updateQuicheVersion` and the
release script's `updateVersion` alike) only replaces the old field value:
the text decomposes around the value, and the written output is exactly
the same text with only the value replaced — every other character,
including all surrounding formatting and all other lines, is unchanged. -/
theorem c7_substitution_frame (text : String) (v : Version)
    (h1 : (findField quichePat text.data).isSome = true)
    (h2 : (findField releasePat text.data).isSome = true) :
    (∃ b g val rest,
      text.data = b ++ g ++ val ++ '"' :: rest ∧ val ≠ [] ∧
      updateQuicheVersionM text (formatVersion v) =
        String.mk (b ++ g ++ (formatVersion v).data ++ '"' :: rest)) ∧
    (∃ b g val rest,
      text.data = b ++ g ++ val ++ '"' :: rest ∧ val ≠ [] ∧
      updateVersionReleaseM text (formatVersion v) =
        String.mk (b ++ g ++ (formatVersion v).data ++ '"' :: rest)) := by
  constructor
  · cases hf : findField quichePat text.data with
    | none => rw [hf] at h1; cases h1
    | some x =>
      obtain ⟨b, g, val, rest⟩ := x
      have hs := findFieldAux_sound quichePat text.data true b g val rest hf
      refine ⟨b, g, val, rest, hs.1, hs.2.1, ?_⟩
      unfold updateQuicheVersionM spliceField
      rw [hf]
  · cases hf : findField releasePat text.data with
    | none => rw [hf] at h2; cases h2
    | some x =>
      obtain ⟨b, g, val, rest⟩ := x
      have hs := findFieldAux_sound releasePat text.data true b g val rest hf
      refine ⟨b, g, val, rest, hs.1, hs.2.1, ?_⟩
      unfold updateVersionReleaseM spliceField
      rw [hf]

/-- C7 witness: the frame property evaluated on a concrete two-line
manifest, rewriting `1.2.3` to `2.0.0`. -/
theorem c7_substitution_frame_witness :
    (findField quichePat ("version = \"1.2.3\"\nname = \"q\"\n" : String).data).isSome = true ∧
    (findField releasePat ("version = \"1.2.3\"\nname = \"q\"\n" : String).data).isSome = true ∧
    updateQuicheVersionM "version = \"1.2.3\"\nname = \"q\"\n" (formatVersion ⟨2, 0, 0⟩) =
      "version = \"2.0.0\"\nname = \"q\"\n" ∧
    ((∃ b g val rest,
      ("version = \"1.2.3\"\nname = \"q\"\n" : String).data =
        b ++ g ++ val ++ '"' :: rest ∧ val ≠ [] ∧
      updateQuicheVersionM "version = \"1.2.3\"\nname = \"q\"\n" (formatVersion ⟨2, 0, 0⟩) =
        String.mk (b ++ g ++ (formatVersion ⟨2, 0, 0⟩).data ++ '"' :: rest)) ∧
    (∃ b g val rest,
      ("version = \"1.2.3\"\nname = \"q\"\n" : String).data =
        b ++ g ++ val ++ '"' :: rest ∧ val ≠ [] ∧
      updateVersionReleaseM "version = \"1.2.3\"\nname = \"q\"\n" (formatVersion ⟨2, 0, 0⟩) =
        String.mk (b ++ g ++ (formatVersion ⟨2, 0, 0⟩).data ++ '"' :: rest))) :=
  ⟨rfl, rfl, rfl,
    c7_substitution_frame "version = \"1.2.3\"\nname = \"q\"\n" ⟨2, 0, 0⟩ rfl rfl⟩

/-! ## Workflow trace lemmas -/

/-- One `runScript` call emits no event or exactly its spawn event. -/
lemma runScriptM_events (sd : ScriptDec) (ev : WEvent) :
    (runScriptM sd ev).1 = [] ∨ (runScriptM sd ev).1 = [ev] := by
  rcases sd with ⟨run, execOk, cont⟩
  cases run with
  | cancelled => left; rfl
  | value b =>
    cases b with
    | false => left; rfl
    | true =>
      cases execOk with
      | true => right; rfl
      | false =>
        cases cont with
        | cancelled => right; rfl
        | value cb => cases cb <;> (right; rfl)

/-- The events of one `runScript` call are all spawn events. -/
lemma runScriptM_all_spawn (sd : ScriptDec) (ev : WEvent)
    (hev : isSpawnEv ev = true) :
    (runScriptM sd ev).1.all isSpawnEv = true := by
  rcases runScriptM_events sd ev with h | h <;> rw [h] <;> simp [hev]

/-- The prelude emits no event or exactly the dirty-tree warning. -/
lemma preludeEvents_shape (d : WDecisions) :
    (preludeEvents d).1 = [] ∨ (preludeEvents d).1 = [WEvent.warnDirty] := by
  unfold preludeEvents
  split
  · left; rfl
  · cases d.proceedDirty with
    | cancelled => right; rfl
    | value b => cases b <;> (right; rfl)

/-- With a clean tree the prelude is silent and does not abort. -/
lemma preludeEvents_clean (d : WDecisions)
    (h : checkGitCleanM d.gitStatus = true) : preludeEvents d = ([], false) := by
  unfold preludeEvents
  rw [if_pos h]

/-- The version writes emit nothing, only the quiche write, or both
writes in program order. -/
lemma applyVersionWrites_shape (d : WDecisions) (q w nv : String) :
    (applyVersionWrites d q w nv).1 = [] ∨
    (applyVersionWrites d q w nv).1 = [WEvent.writeQuiche] ∨
    (applyVersionWrites d q w nv).1 = [WEvent.writeQuiche, WEvent.writeWorkspace] := by
  unfold applyVersionWrites
  cases hq : d.quicheWriteOk <;> cases hw2 : d.workspaceWriteOk <;> simp [hq, hw2]

/-- The version phase emits nothing, only the quiche write, or both
writes. -/
lemma versionPhase_shape (d : WDecisions) (cur : Version) (curStr q w : String) :
    (versionPhase d cur curStr q w).1 = [] ∨
    (versionPhase d cur curStr q w).1 = [WEvent.writeQuiche] ∨
    (versionPhase d cur curStr q w).1 = [WEvent.writeQuiche, WEvent.writeWorkspace] := by
  unfold versionPhase
  cases hva : d.versionAction with
  | cancelled => left; rfl
  | value a =>
    cases a with
    | skip => left; rfl
    | custom =>
      cases hcv : d.customVersion with
      | cancelled => left; rfl
      | value cv => exact applyVersionWrites_shape d q w cv
    | bump k => exact applyVersionWrites_shape d q w (formatVersion (bumpVersion cur k))

/-- The release phase only appends spawn events to the accumulator. -/
lemma releasePhase_trace (d : WDecisions) (acc : List WEvent) (q w : String)
    (c b : Bool) :
    ∃ ext, (releasePhase d acc q w c b).trace = acc ++ ext ∧
      ext.all isSpawnEv = true := by
  unfold releasePhase
  cases d.shouldRelease with
  | cancelled => exact ⟨[], by simp, rfl⟩
  | value bv =>
    cases bv with
    | false => exact ⟨[], by simp, rfl⟩
    | true =>
      rcases hrs : runScriptM d.releaseScript .spawnRelease with ⟨e, res⟩
      have hall : e.all isSpawnEv = true := by
        have := runScriptM_all_spawn d.releaseScript .spawnRelease rfl
        rw [hrs] at this
        exact this
      refine ⟨e, ?_, hall⟩
      cases res <;> rfl

/-- The commit phase only appends spawn events to the accumulator. -/
lemma commitPhase_trace (d : WDecisions) (acc : List WEvent) (q w : String)
    (c b : Bool) :
    ∃ ext, (commitPhase d acc q w c b).trace = acc ++ ext ∧
      ext.all isSpawnEv = true := by
  unfold commitPhase
  split
  · rcases hrs : runScriptM d.commitScript .spawnCommit with ⟨e, res⟩
    have hall : e.all isSpawnEv = true := by
      have := runScriptM_all_spawn d.commitScript .spawnCommit rfl
      rw [hrs] at this
      exact this
    cases res with
    | exited c0 => exact ⟨e, rfl, hall⟩
    | ran =>
      obtain ⟨ext, h1, h2⟩ := releasePhase_trace d (acc ++ e) q w c b
      exact ⟨e ++ ext, by rw [h1, List.append_assoc],
        by rw [List.all_append, hall, h2]; rfl⟩
    | skipped =>
      obtain ⟨ext, h1, h2⟩ := releasePhase_trace d (acc ++ e) q w c b
      exact ⟨e ++ ext, by rw [h1, List.append_assoc],
        by rw [List.all_append, hall, h2]; rfl⟩
    | failedContinue =>
      obtain ⟨ext, h1, h2⟩ := releasePhase_trace d (acc ++ e) q w c b
      exact ⟨e ++ ext, by rw [h1, List.append_assoc],
        by rw [List.all_append, hall, h2]; rfl⟩
  · exact releasePhase_trace d acc q w c b

/-- The package phase only appends spawn events to the accumulator. -/
lemma packagePhase_trace (d : WDecisions) (acc : List WEvent) (q w : String)
    (c b : Bool) :
    ∃ ext, (packagePhase d acc q w c b).trace = acc ++ ext ∧
      ext.all isSpawnEv = true := by
  unfold packagePhase
  split
  · rcases hrs : runScriptM d.packageScript .spawnPackage with ⟨e, res⟩
    have hall : e.all isSpawnEv = true := by
      have := runScriptM_all_spawn d.packageScript .spawnPackage rfl
      rw [hrs] at this
      exact this
    cases res with
    | exited c0 => exact ⟨e, rfl, hall⟩
    | ran =>
      obtain ⟨ext, h1, h2⟩ := commitPhase_trace d (acc ++ e) q w c b
      exact ⟨e ++ ext, by rw [h1, List.append_assoc],
        by rw [List.all_append, hall, h2]; rfl⟩
    | skipped =>
      obtain ⟨ext, h1, h2⟩ := commitPhase_trace d (acc ++ e) q w c b
      exact ⟨e ++ ext, by rw [h1, List.append_assoc],
        by rw [List.all_append, hall, h2]; rfl⟩
    | failedContinue =>
      obtain ⟨ext, h1, h2⟩ := commitPhase_trace d (acc ++ e) q w c b
      exact ⟨e ++ ext, by rw [h1, List.append_assoc],
        by rw [List.all_append, hall, h2]; rfl⟩
  · exact commitPhase_trace d acc q w c b

/-- The build phase and everything after it only append spawn events to
the accumulator. -/
lemma buildPhase_trace (d : WDecisions) (acc : List WEvent) (q w : String)
    (c : Bool) :
    ∃ ext, (buildPhase d acc q w c).trace = acc ++ ext ∧
      ext.all isSpawnEv = true := by
  unfold buildPhase
  rcases hrs : runScriptM d.buildScript .spawnBuild with ⟨e, res⟩
  have hall : e.all isSpawnEv = true := by
    have := runScriptM_all_spawn d.buildScript .spawnBuild rfl
    rw [hrs] at this
    exact this
  cases res with
  | exited c0 => exact ⟨e, rfl, hall⟩
  | ran =>
    obtain ⟨ext, h1, h2⟩ := packagePhase_trace d (acc ++ e) q w c true
    exact ⟨e ++ ext, by rw [h1, List.append_assoc],
      by rw [List.all_append, hall, h2]; rfl⟩
  | skipped =>
    obtain ⟨ext, h1, h2⟩ := packagePhase_trace d (acc ++ e) q w c false
    exact ⟨e ++ ext, by rw [h1, List.append_assoc],
      by rw [List.all_append, hall, h2]; rfl⟩
  | failedContinue =>
    obtain ⟨ext, h1, h2⟩ := packagePhase_trace d (acc ++ e) q w c false
    exact ⟨e ++ ext, by rw [h1, List.append_assoc],
      by rw [List.all_append, hall, h2]; rfl⟩

/-- `wRun` when the prelude aborts. -/
lemma wRun_of_prelude_true (d : WDecisions) (q w : String) (e0 : List WEvent)
    (h : preludeEvents d = (e0, true)) :
    wRun d q w = ⟨e0, q, w, false, false, some 0⟩ := by
  simp only [wRun]
  rw [h]

/-- `wRun` after a non-aborting prelude. -/
lemma wRun_of_prelude_false (d : WDecisions) (q w : String) (e0 : List WEvent)
    (h : preludeEvents d = (e0, false)) :
    wRun d q w =
      match parseVersionW (getCurrentVersionW q) with
      | .error _ => ⟨e0, q, w, false, false, some 1⟩
      | .ok cur =>
        match versionPhase d cur (getCurrentVersionW q) q w with
        | (e1, q', w', .cancelled) => ⟨e0 ++ e1, q', w', false, false, some 0⟩
        | (e1, q', w', .writeFailed) => ⟨e0 ++ e1, q', w', false, false, some 1⟩
        | (e1, q', w', .done _ changed) => buildPhase d (e0 ++ e1) q' w' changed := by
  simp only [wRun]
  rw [h]

/-- `wRun` after a non-aborting prelude and a successful version parse. -/
lemma wRun_of_parse_ok (d : WDecisions) (q w : String) (e0 : List WEvent)
    (cur : Version) (hpe : preludeEvents d = (e0, false))
    (hp : parseVersionW (getCurrentVersionW q) = .ok cur) :
    wRun d q w =
      match versionPhase d cur (getCurrentVersionW q) q w with
      | (e1, q', w', .cancelled) => ⟨e0 ++ e1, q', w', false, false, some 0⟩
      | (e1, q', w', .writeFailed) => ⟨e0 ++ e1, q', w', false, false, some 1⟩
      | (e1, q', w', .done _ changed) => buildPhase d (e0 ++ e1) q' w' changed := by
  rw [wRun_of_prelude_false d q w e0 hpe, hp]

/-- Trace decomposition of a full workflow run: an optional dirty
warning, then the manifest writes, then only phase-script spawns. -/
lemma wRun_trace_decomp (d : WDecisions) (q w : String) :
    ∃ e0 e1 ext,
      (wRun d q w).trace = (e0 ++ e1) ++ ext ∧
      (e0 = [] ∨ e0 = [WEvent.warnDirty]) ∧
      (e1 = [] ∨ e1 = [WEvent.writeQuiche] ∨
        e1 = [WEvent.writeQuiche, WEvent.writeWorkspace]) ∧
      ext.all isSpawnEv = true ∧
      (checkGitCleanM d.gitStatus = true → e0 = []) := by
  rcases hpe : preludeEvents d with ⟨e0, ab⟩
  have he0 : e0 = [] ∨ e0 = [WEvent.warnDirty] := by
    have := preludeEvents_shape d
    rw [hpe] at this
    exact this
  have hclean : checkGitCleanM d.gitStatus = true → e0 = [] := by
    intro hcc
    have := preludeEvents_clean d hcc
    rw [hpe] at this
    exact congrArg Prod.fst this
  cases ab with
  | true =>
    refine ⟨e0, [], [], ?_, he0, Or.inl rfl, rfl, hclean⟩
    rw [wRun_of_prelude_true d q w e0 hpe]
    simp
  | false =>
    cases hp : parseVersionW (getCurrentVersionW q) with
    | error msg =>
      refine ⟨e0, [], [], ?_, he0, Or.inl rfl, rfl, hclean⟩
      rw [wRun_of_prelude_false d q w e0 hpe, hp]
      simp
    | ok cur =>
      rcases hv : versionPhase d cur (getCurrentVersionW q) q w with ⟨e1, q', w', vres⟩
      have he1 : e1 = [] ∨ e1 = [WEvent.writeQuiche] ∨
          e1 = [WEvent.writeQuiche, WEvent.writeWorkspace] := by
        have := versionPhase_shape d cur (getCurrentVersionW q) q w
        rw [hv] at this
        exact this
      rw [wRun_of_parse_ok d q w e0 cur hpe hp, hv]
      cases vres with
      | cancelled => exact ⟨e0, e1, [], by simp, he0, he1, rfl, hclean⟩
      | writeFailed => exact ⟨e0, e1, [], by simp, he0, he1, rfl, hclean⟩
      | done nv changed =>
        obtain ⟨ext, h1, h2⟩ := buildPhase_trace d (e0 ++ e1) q' w' changed
        exact ⟨e0, e1, ext, h1, he0, he1, h2, hclean⟩

/-- Spawn-only event lists contain no writes and no warning. -/
lemma all_spawn_counts (l : List WEvent) (h : l.all isSpawnEv = true) :
    l.countP isWriteQuiche = 0 ∧ l.countP isWriteWorkspace = 0 ∧
    l.countP isVersionWrite = 0 ∧ l.countP isWarnDirty = 0 := by
  induction l with
  | nil => simp
  | cons a l ih =>
    simp only [List.all_cons, Bool.and_eq_true] at h
    obtain ⟨h1, h2⟩ := h
    obtain ⟨i1, i2, i3, i4⟩ := ih h2
    cases a with
    | warnDirty => exact absurd h1 (by decide)
    | writeQuiche => exact absurd h1 (by decide)
    | writeWorkspace => exact absurd h1 (by decide)
    | spawnBuild =>
      simp [List.countP_cons, isWriteQuiche, isWriteWorkspace, isVersionWrite,
        isWarnDirty, i1, i2, i3, i4]
    | spawnPackage =>
      simp [List.countP_cons, isWriteQuiche, isWriteWorkspace, isVersionWrite,
        isWarnDirty, i1, i2, i3, i4]
    | spawnCommit =>
      simp [List.countP_cons, isWriteQuiche, isWriteWorkspace, isVersionWrite,
        isWarnDirty, i1, i2, i3, i4]
    | spawnRelease =>
      simp [List.countP_cons, isWriteQuiche, isWriteWorkspace, isVersionWrite,
        isWarnDirty, i1, i2, i3, i4]

/-- `dropWhile` passes over a prefix whose elements all satisfy it. -/
lemma dropWhile_append_all {α : Type} (p : α → Bool) :
    ∀ (l₁ l₂ : List α), (∀ x ∈ l₁, p x = true) →
      (l₁ ++ l₂).dropWhile p = l₂.dropWhile p := by
  intro l₁
  induction l₁ with
  | nil => intro l₂ _; rfl
  | cons a l ih =>
    intro l₂ h
    rw [List.cons_append, List.dropWhile_cons, if_pos (h a (List.mem_cons_self a l))]
    exact ih l₂ (fun x hx => h x (List.mem_cons_of_mem a hx))

/-- Dropping a prefix cannot increase a count. -/
lemma countP_dropWhile_le {α : Type} (p pq : α → Bool) (l : List α) :
    (l.dropWhile p).countP pq ≤ l.countP pq := by
  conv_rhs => rw [← List.takeWhile_append_dropWhile p l]
  rw [List.countP_append]
  omega

/-! ## C3: manifest writes happen at most once, before any build spawn -/

/-- C3: in every workflow run, each manifest version write occurs at most
once in the trace, and from the first build-script spawn onward the trace
contains no manifest version write — every persisted version mutation
strictly precedes the first build invocation. -/
theorem c3_version_write_before_build (d : WDecisions) (q w : String) :
    (wRun d q w).trace.countP isWriteQuiche ≤ 1 ∧
    (wRun d q w).trace.countP isWriteWorkspace ≤ 1 ∧
    ((wRun d q w).trace.dropWhile (fun e => !isSpawnBuild e)).countP
      isVersionWrite = 0 := by
  obtain ⟨e0, e1, ext, ht, he0, he1, hall, _⟩ := wRun_trace_decomp d q w
  obtain ⟨x1, x2, x3, x4⟩ := all_spawn_counts ext hall
  rw [ht]
  refine ⟨?_, ?_, ?_⟩
  · rw [List.countP_append, List.countP_append, x1]
    rcases he0 with h | h <;> rcases he1 with h' | h' | h' <;>
      subst h <;> subst h' <;> decide
  · rw [List.countP_append, List.countP_append, x2]
    rcases he0 with h | h <;> rcases he1 with h' | h' | h' <;>
      subst h <;> subst h' <;> decide
  · have hpre : ∀ x ∈ e0 ++ e1, (fun e => !isSpawnBuild e) x = true := by
      intro x hx
      rcases List.mem_append.1 hx with hx | hx
      · rcases he0 with h | h <;> subst h <;> simp at hx
        subst hx
        decide
      · rcases he1 with h | h | h <;> subst h <;> simp at hx
        · subst hx
          decide
        · rcases hx with hx | hx <;> subst hx <;> decide
    rw [dropWhile_append_all _ (e0 ++ e1) ext hpre]
    have := countP_dropWhile_le (fun e => !isSpawnBuild e) isVersionWrite ext
    omega

/-! ## C10: a failing status query reports a clean tree -/

/-- C10: the silent `exec` helper converts every failure of the
`git status --porcelain` query into the empty string, so `checkGitClean`
reports the tree as clean, and the workflow run shows no dirty-tree
warning (and hence no operator confirmation) in its trace. -/
theorem c10_exec_failure_reports_clean :
    checkGitCleanM ExecOut.fail = true ∧
    execSilent ExecOut.fail = "" ∧
    ∀ (d : WDecisions) (q w : String), d.gitStatus = ExecOut.fail →
      (wRun d q w).trace.countP isWarnDirty = 0 := by
  refine ⟨rfl, rfl, ?_⟩
  intro d q w hg
  obtain ⟨e0, e1, ext, ht, he0, he1, hall, hclean⟩ := wRun_trace_decomp d q w
  have he0' : e0 = [] := hclean (by rw [hg]; rfl)
  subst he0'
  obtain ⟨x1, x2, x3, x4⟩ := all_spawn_counts ext hall
  rw [ht, List.countP_append, List.countP_append, x4]
  rcases he1 with h | h | h <;> subst h <;> decide

/-- Decisions for the C10 witness: the status query itself fails. -/
def c10Decisions : WDecisions :=
  { gitStatus := .fail, proceedDirty := .value true,
    versionAction := .value .skip, customVersion := .cancelled,
    quicheWriteOk := true, workspaceWriteOk := true,
    buildScript := ⟨.value false, true, .value true⟩,
    packageScript := ⟨.value false, true, .value true⟩,
    gitStatus2 := .ok "", commitScript := ⟨.value false, true, .value true⟩,
    shouldRelease := .value false,
    releaseScript := ⟨.value false, true, .value true⟩ }

/-- C10 witness: a concrete run with a failing status query has no
dirty-tree warning in its trace. -/
theorem c10_exec_failure_reports_clean_witness :
    c10Decisions.gitStatus = ExecOut.fail ∧
    (wRun c10Decisions "version = \"1.2.3\"\n"
      "quiche = \x7b version = \"1.2.3\" \x7d\n").trace.countP isWarnDirty = 0 :=
  ⟨rfl, c10_exec_failure_reports_clean.2.2 c10Decisions
    "version = \"1.2.3\"\n" "quiche = \x7b version = \"1.2.3\" \x7d\n" rfl⟩

/-! ## C4: a failing manifest write stops the workflow before building -/

/-- C4 (amended): if one of the two manifest writes of the version update
fails, `versionChanged` stays `false`, no build-script spawn appears in
the trace, and the workflow exits with code 1 — but the quiche manifest
write that preceded a failing workspace write is already on disk (the
update is not atomic across the manifests, see the counterexample). -/
theorem c4_write_failure_stops_workflow (d : WDecisions) (q w : String)
    (cur : Version) (e0 e1 : List WEvent) (q' w' : String)
    (hpe : preludeEvents d = (e0, false))
    (hp : parseVersionW (getCurrentVersionW q) = .ok cur)
    (hv : versionPhase d cur (getCurrentVersionW q) q w =
      (e1, q', w', .writeFailed)) :
    (wRun d q w).versionChanged = false ∧
    (wRun d q w).trace.countP isSpawnBuild = 0 ∧
    (wRun d q w).exit = some 1 := by
  have hw : wRun d q w = ⟨e0 ++ e1, q', w', false, false, some 1⟩ := by
    rw [wRun_of_parse_ok d q w e0 cur hpe hp, hv]
  rw [hw]
  refine ⟨rfl, ?_, rfl⟩
  have he0 : e0 = [] ∨ e0 = [WEvent.warnDirty] := by
    have := preludeEvents_shape d
    rw [hpe] at this
    exact this
  have he1 := versionPhase_shape d cur (getCurrentVersionW q) q w
  rw [hv] at he1
  show (e0 ++ e1).countP isSpawnBuild = 0
  rw [List.countP_append]
  rcases he0 with h | h <;> rcases he1 with h' | h' | h' <;>
    subst h <;> subst h' <;> decide

/-- Decisions for the C4 scenario: patch bump, the quiche manifest write
succeeds, the workspace manifest write fails. -/
def c4Decisions : WDecisions :=
  { gitStatus := .ok "", proceedDirty := .value true,
    versionAction := .value (.bump .patch), customVersion := .cancelled,
    quicheWriteOk := true, workspaceWriteOk := false,
    buildScript := ⟨.value true, true, .value true⟩,
    packageScript := ⟨.value true, true, .value true⟩,
    gitStatus2 := .ok "M x", commitScript := ⟨.value true, true, .value true⟩,
    shouldRelease := .value true,
    releaseScript := ⟨.value true, true, .value true⟩ }

/-- Initial quiche manifest for the C4 scenario. -/
def c4Quiche : String :=
  "version = \"1.2.3\"\n"

/-- Initial workspace manifest for the C4 scenario. -/
def c4Workspace : String :=
  "quiche = \x7b version = \"1.2.3\" \x7d\n"

/-- C4 counterexample: the workspace write fails after the quiche write
succeeded — the workflow stops before the build and `versionChanged`
stays `false`, but the quiche manifest already carries the new version
`1.2.4`, so "no manifest retains a partially applied new version" is
false. -/
theorem c4_counterexample :
    (wRun c4Decisions c4Quiche c4Workspace).versionChanged = false ∧
    (wRun c4Decisions c4Quiche c4Workspace).exit = some 1 ∧
    (wRun c4Decisions c4Quiche c4Workspace).trace.countP isSpawnBuild = 0 ∧
    (wRun c4Decisions c4Quiche c4Workspace).quiche = "version = \"1.2.4\"\n" ∧
    (wRun c4Decisions c4Quiche c4Workspace).quiche ≠ c4Quiche := by
  refine ⟨rfl, rfl, rfl, rfl, by decide⟩

/-- C4 witness: the amended theorem applied to the concrete failing-write
scenario. -/
theorem c4_write_failure_stops_workflow_witness :
    (preludeEvents c4Decisions = ([], false) ∧
      parseVersionW (getCurrentVersionW c4Quiche) = .ok ⟨1, 2, 3⟩ ∧
      versionPhase c4Decisions ⟨1, 2, 3⟩ (getCurrentVersionW c4Quiche)
        c4Quiche c4Workspace =
        ([WEvent.writeQuiche], "version = \"1.2.4\"\n", c4Workspace,
          .writeFailed)) ∧
    ((wRun c4Decisions c4Quiche c4Workspace).versionChanged = false ∧
      (wRun c4Decisions c4Quiche c4Workspace).trace.countP isSpawnBuild = 0 ∧
      (wRun c4Decisions c4Quiche c4Workspace).exit = some 1) :=
  ⟨⟨rfl, rfl, rfl⟩,
    c4_write_failure_stops_workflow c4Decisions c4Quiche c4Workspace
      ⟨1, 2, 3⟩ [] [WEvent.writeQuiche] "version = \"1.2.4\"\n" c4Workspace
      rfl rfl rfl⟩

end Quiche
